import Mathlib

/-!
Verification of the search / helper-promotion / auto-select / highlight pipeline of
`src/renderer/components/NodeDocumentation/NodeDocumentationModal.tsx` (chaiNNer).

The component builds a full-text index over node schemas, runs a search on each query
change, promotes helper-node matches to their parent schemas, auto-selects the highest
scoring schema, and compiles a highlight pattern from the matched terms.

Modelling conventions:
* JavaScript `Map` objects are insertion-ordered association lists (`mapSet` updates an
  existing key in place, keeping its position, and appends new keys at the end, exactly
  as `Map.prototype.set` does; `mapGet`/`mapHas` mirror `get`/`has`).
* JavaScript `Set` objects are duplicate-free lists in insertion order.
* MiniSearch is an external library; a search run is represented by the list of raw
  results it returns (identifier, numeric score, matched terms).  Scores are rationals:
  the component only compares them and takes maxima, so no floating-point behaviour is
  involved.
-/

namespace ChainnerDoc

/-- An input or output entry of a node schema: a label and an optional description. -/
structure InputOutput where
  label : String
  description : Option String
  deriving Repr, DecidableEq

/-- A helper ("default") node declared by a schema, identified by its schema id. -/
structure DefaultNode where
  schemaId : String
  deriving Repr, DecidableEq

/-- The fields of `NodeSchema` used by this component (from `common/common-types`). -/
structure NodeSchema where
  schemaId : String
  name : String
  category : String
  subcategory : String
  description : String
  inputs : List InputOutput
  outputs : List InputOutput
  defaultNodes : Option (List DefaultNode)
  deriving Repr, DecidableEq

/-- A raw search result returned by `searchIndex.search`: the document id, its relevance
score, and the list of matched term strings. -/
structure SearchResult where
  id : String
  score : ℚ
  terms : List String
  deriving Repr, DecidableEq

/-! ### JavaScript `Map` as an insertion-ordered association list -/

/-- `Map.prototype.get`: the value of the first (unique) entry with the given key. -/
def mapGet {α : Type} : List (String × α) → String → Option α
  | [], _ => none
  | p :: m, k => if p.1 = k then some p.2 else mapGet m k

/-- `Map.prototype.set`: update an existing key in place (keeping its position in
iteration order) or append a new entry at the end. -/
def mapSet {α : Type} : List (String × α) → String → α → List (String × α)
  | [], k, v => [(k, v)]
  | p :: m, k, v => if p.1 = k then (k, v) :: m else p :: mapSet m k v

/-- `Map.prototype.has`. -/
def mapHas {α : Type} (m : List (String × α)) (k : String) : Bool :=
  (mapGet m k).isSome

@[simp] theorem mapGet_nil {α : Type} (k : String) : mapGet ([] : List (String × α)) k = none :=
  rfl

theorem mapGet_cons {α : Type} (p : String × α) (m : List (String × α)) (k : String) :
    mapGet (p :: m) k = if p.1 = k then some p.2 else mapGet m k :=
  rfl

/-- After `set k v`, looking up `k` yields `v`. -/
theorem mapGet_mapSet_self {α : Type} (m : List (String × α)) (k : String) (v : α) :
    mapGet (mapSet m k v) k = some v := by
  induction m with
  | nil => simp [mapSet, mapGet]
  | cons p m ih =>
    by_cases h : p.1 = k
    · simp [mapSet, h, mapGet]
    · simp [mapSet, h, mapGet_cons, ih]

/-- `set` on a different key does not change a lookup. -/
theorem mapGet_mapSet_ne {α : Type} (m : List (String × α)) (k k' : String) (v : α)
    (h : k ≠ k') : mapGet (mapSet m k' v) k = mapGet m k := by
  induction m with
  | nil => simp [mapSet, mapGet, Ne.symm h]
  | cons p m ih =>
    by_cases hp : p.1 = k'
    · subst hp
      have hk : ¬ p.1 = k := Ne.symm h
      simp [mapSet, mapGet_cons, hk]
    · simp [mapSet, hp, mapGet_cons, ih]

/-- Every entry of `mapSet m k v` is an entry of `m` or has key `k`. -/
theorem mem_mapSet {α : Type} (m : List (String × α)) (k : String) (v : α)
    (q : String × α) (h : q ∈ mapSet m k v) : q ∈ m ∨ q.1 = k := by
  induction m with
  | nil => simp [mapSet] at h; simp [h]
  | cons p m ih =>
    by_cases hp : p.1 = k
    · simp [mapSet, hp] at h
      rcases h with h | h
      · right; rw [h]
      · left; simp [h]
    · simp [mapSet, hp] at h
      rcases h with h | h
      · left; simp [h]
      · rcases ih h with h' | h'
        · left; simp [h']
        · right; exact h'

/-- A successful lookup in `mapSet m k v` is either the new binding or an old one. -/
theorem mapGet_mapSet_cases {α : Type} (m : List (String × α)) (k k' : String) (v w : α)
    (h : mapGet (mapSet m k v) k' = some w) :
    (k' = k ∧ w = v) ∨ mapGet m k' = some w := by
  by_cases hk : k' = k
  · subst hk
    rw [mapGet_mapSet_self] at h
    exact Or.inl ⟨rfl, (Option.some_injective _ h).symm⟩
  · rw [mapGet_mapSet_ne m k' k v hk] at h
    exact Or.inr h

/-! ### Score-map construction with helper promotion (lines 86–96 of the source)

```ts
const scores = new Map<SchemaId, number>();
for (const result of searchResults) {
    const id = String(result.id) as SchemaId;
    scores.set(id, result.score);
    const parent = helperNodeMapping.get(id);
    if (parent && !scores.has(parent)) {
        scores.set(parent, result.score);
    }
}
```
-/

/-- One iteration of the result loop: record the result score, then promote it to the
helper's parent when the parent has no entry yet.  The JS condition
`if (parent && !scores.has(parent))` is a truthiness test on the string `parent`: it
rejects `undefined` (no helper-map entry) and also the falsy empty string, so a lookup
that yields `""` skips promotion just like a missing one. -/
def scoreStep (helperNodeMapping : List (String × String))
    (scores : List (String × ℚ)) (r : SearchResult) : List (String × ℚ) :=
  let scores1 := mapSet scores r.id r.score
  match mapGet helperNodeMapping r.id with
  | some parent =>
      if parent = "" then scores1
      else if mapHas scores1 parent then scores1
      else mapSet scores1 parent r.score
  | none => scores1

/-- The final score map produced from the raw search results. -/
def computeScores (helperNodeMapping : List (String × String))
    (searchResults : List SearchResult) : List (String × ℚ) :=
  searchResults.foldl (scoreStep helperNodeMapping) []

/-- A score step leaves an existing entry of a different id untouched. -/
theorem scoreStep_preserves (hm : List (String × String)) (scores : List (String × ℚ))
    (r : SearchResult) (k : String) (v : ℚ) (hget : mapGet scores k = some v)
    (hne : r.id ≠ k) : mapGet (scoreStep hm scores r) k = some v := by
  unfold scoreStep
  have h1 : mapGet (mapSet scores r.id r.score) k = some v := by
    rw [mapGet_mapSet_ne scores k r.id r.score (fun h => hne h.symm)]; exact hget
  cases hp : mapGet hm r.id with
  | none => simpa using h1
  | some parent =>
    simp only
    by_cases hpe : parent = ""
    · simpa [hpe] using h1
    · simp only [hpe, if_false]
      by_cases hhas : mapHas (mapSet scores r.id r.score) parent
      · simpa [hhas] using h1
      · simp only [hhas, if_false, Bool.false_eq_true]
        by_cases hpk : parent = k
        · subst hpk
          exact absurd (by simp [mapHas, h1]) hhas
        · rw [mapGet_mapSet_ne _ k parent r.score (fun h => hpk h.symm)]
          exact h1

/-- After processing a result, that result's own score is the entry for its id. -/
theorem scoreStep_self (hm : List (String × String)) (scores : List (String × ℚ))
    (r : SearchResult) : mapGet (scoreStep hm scores r) r.id = some r.score := by
  unfold scoreStep
  have h1 : mapGet (mapSet scores r.id r.score) r.id = some r.score :=
    mapGet_mapSet_self scores r.id r.score
  cases hp : mapGet hm r.id with
  | none => simpa using h1
  | some parent =>
    simp only
    by_cases hpe : parent = ""
    · simpa [hpe] using h1
    · simp only [hpe, if_false]
      by_cases hhas : mapHas (mapSet scores r.id r.score) parent
      · simpa [hhas] using h1
      · simp only [hhas, if_false, Bool.false_eq_true]
        by_cases hpk : parent = r.id
        · subst hpk
          exact absurd (by simp [mapHas, h1]) hhas
        · rw [mapGet_mapSet_ne _ r.id parent r.score (fun h => hpk h.symm)]
          exact h1

/-- Folding further results whose ids differ from `k` preserves `k`'s entry. -/
theorem foldl_scoreStep_preserves (hm : List (String × String)) (l : List SearchResult)
    (scores : List (String × ℚ)) (k : String) (v : ℚ) (hget : mapGet scores k = some v)
    (hne : ∀ r ∈ l, r.id ≠ k) :
    mapGet (l.foldl (scoreStep hm) scores) k = some v := by
  induction l generalizing scores with
  | nil => simpa using hget
  | cons r l ih =>
    simp only [List.foldl_cons]
    exact ih (scoreStep hm scores r)
      (scoreStep_preserves hm scores r k v hget (hne r (by simp)))
      (fun r' hr' => hne r' (by simp [hr']))

/-! ### Helper-node map (lines 62–70 of the source)

```ts
const mapping = new Map<SchemaId, SchemaId>();
for (const schema of schemata.schemata) {
    for (const helper of schema.defaultNodes ?? []) {
        mapping.set(helper.schemaId, schema.schemaId);
    }
}
```
-/

/-- The helper-node map: helper schema id → owning (parent) schema id. -/
def buildHelperMap (schemata : List NodeSchema) : List (String × String) :=
  schemata.foldl
    (fun mapping schema =>
      (schema.defaultNodes.getD []).foldl
        (fun mp helper => mapSet mp helper.schemaId schema.schemaId) mapping)
    []

/-! ### Search-index field extraction (lines 41–48 of the source)

```ts
extractField: (document, fieldName): string => {
    if (fieldName === 'inputs' || fieldName === 'outputs') {
        return document[fieldName]
            .map((i) => `${i.label} ${i.description ?? ''}`)
            .join('\n\n');
    }
    return String((document as unknown as Record<string, unknown>)[fieldName]);
},
```
-/

/-- The indexed fields of the search index. -/
inductive SearchField
  | category
  | description
  | name
  | subcategory
  | inputs
  | outputs
  deriving Repr, DecidableEq

/-- `extractField` of `createSearchIndex`: for `inputs`/`outputs`, the entries are
rendered as `label ⟨space⟩ (description or empty)` and joined with `"\n\n"`; every
other field is its raw string value (`String` applied to a string is the identity). -/
def extractField (document : NodeSchema) (fieldName : SearchField) : String :=
  match fieldName with
  | .inputs =>
      String.intercalate "\n\n"
        (document.inputs.map (fun i => i.label ++ " " ++ i.description.getD ""))
  | .outputs =>
      String.intercalate "\n\n"
        (document.outputs.map (fun i => i.label ++ " " ++ i.description.getD ""))
  | .category => document.category
  | .description => document.description
  | .name => document.name
  | .subcategory => document.subcategory

/-- Stated from the spec's words (§4.1): the text indexed for an inputs/outputs field is
"synthesized by concatenating, for each entry, its label and description (empty string
if absent), joined with blank-line separators". -/
def specIndexedEntryText (entries : List InputOutput) : String :=
  String.intercalate "\n\n" (entries.map (fun e => e.label ++ " " ++ e.description.getD ""))

/-! ### Matched-term set (line 84 of the source)

```ts
const terms = new Set(searchResults.flatMap((r) => r.terms).map((t) => t.toLowerCase()));
```
-/

/-- `Set.prototype.add`-style insertion: keep the list duplicate-free, appending new
elements at the end. -/
def setAdd (l : List String) (x : String) : List String :=
  if x ∈ l then l else l ++ [x]

/-- The set of matched terms: all result terms, lowercased, deduplicated (JS `Set`). -/
def computeTerms (searchResults : List SearchResult) : List String :=
  (((searchResults.map (fun r => r.terms)).flatten).map String.toLower).foldl setAdd []

/-! ### The search controller (lines 74–98 of the source)

The MiniSearch index and its `search` method are an external library; a search run is
represented by the raw result list the library returns for the query (`rawSearch`).
The controller itself (the `useMemo` body) is embedded faithfully: a blank query
produces no output at all, otherwise the score map and term set are computed from the
raw results. -/

/-- `String.prototype.trim`: strip leading and trailing whitespace characters. -/
def jsTrim (s : String) : String :=
  String.mk (((s.data.dropWhile Char.isWhitespace).reverse.dropWhile Char.isWhitespace).reverse)

/-- The `searchScores`/`searchTerms` memo: `none` when the trimmed query is empty
(`if (!searchQuery.trim()) return {};` — the empty string is the only falsy string),
otherwise the promoted score map and the lowercased, deduplicated term set. -/
def runSearch (helperNodeMapping : List (String × String))
    (rawSearch : String → List SearchResult) (searchQuery : String) :
    Option (List (String × ℚ) × List String) :=
  if jsTrim searchQuery = "" then none
  else
    some (computeScores helperNodeMapping (rawSearch searchQuery),
          computeTerms (rawSearch searchQuery))

/-- The `searchScores` component of the controller output. -/
def searchScores (helperNodeMapping : List (String × String))
    (rawSearch : String → List SearchResult) (searchQuery : String) :
    Option (List (String × ℚ)) :=
  (runSearch helperNodeMapping rawSearch searchQuery).map (fun p => p.1)

/-- The `searchTerms` component of the controller output. -/
def searchTerms (helperNodeMapping : List (String × String))
    (rawSearch : String → List SearchResult) (searchQuery : String) :
    Option (List String) :=
  (runSearch helperNodeMapping rawSearch searchQuery).map (fun p => p.2)

/-! ### Auto-select (lines 106–118 of the source)

```ts
if (searchScores && searchScores.size > 0) {
    const highestScore = Math.max(...searchScores.values());
    let highestScoreSchemaId = [...searchScores.entries()].find(
        ([, score]) => score === highestScore
    )?.[0];
    if (highestScoreSchemaId) {
        highestScoreSchemaId =
            helperNodeMapping.get(highestScoreSchemaId) ?? highestScoreSchemaId;
        openNodeDocumentation(highestScoreSchemaId);
    }
}
```

Note the `if (highestScoreSchemaId)` truthiness guard on a string: it rejects both
`undefined` (no entry found) and the empty string `""`.
-/

/-- `Math.max(...m.values())` for a non-empty map; the `[]` case is unreachable behind
the `size > 0` guard (JS would give `-Infinity` there) and is given an arbitrary value. -/
def maxScore (m : List (String × ℚ)) : ℚ :=
  match m with
  | [] => 0
  | p :: rest => rest.foldl (fun a q => max a q.2) p.2

/-- The auto-select effect: the schema id passed to `openNodeDocumentation`, or `none`
when no call happens.  `scores = none` models an inactive search. -/
def autoSelect (helperNodeMapping : List (String × String))
    (scores : Option (List (String × ℚ))) : Option String :=
  match scores with
  | none => none
  | some m =>
    if 0 < m.length then
      match m.find? (fun p => p.2 = maxScore m) with
      | some p =>
          if p.1 = "" then none
          else some ((mapGet helperNodeMapping p.1).getD p.1)
      | none => none
    else none

/-- The selection after the auto-select effect runs: unchanged when no call happens. -/
def applySelect (current : String) (selected : Option String) : String :=
  selected.getD current

/-! ### Highlight pattern (lines 100–103 of the source)

```ts
const highlightRegex = useMemo(() => {
    if (!searchTerms) return undefined;
    return RegExp(`(?:${[...searchTerms].map(escapeRegExp).join('|')})(?!\\w)`, 'ig');
}, [searchTerms]);
```

`escapeRegExp` lives in `common/util` (not under `src/`), and the `RegExp` engine is
a platform facility; both are modelled below.
-/

/-- Modelled from the spec: `escapeRegExp` of `common/util` is not under `src/`; §4.5
and §6 describe it as "a text-escaping utility for building literal-match patterns"
that escapes "each term for literal matching".  It prefixes every regular-expression
metacharacter with a backslash so the term matches only itself. -/
def escapeRegExp (s : String) : String :=
  String.mk (s.data.flatMap
    (fun c =>
      if c ∈ ['.', '*', '+', '?', '^', '$', '\x7b', '\x7d', '(', ')', '|', '[', ']', '\\', '/', '-']
      then ['\\', c] else [c]))

/-- The pattern string built on line 102: `(?:t1|t2|...)(?!\w)` over the escaped terms. -/
def buildHighlightPattern (terms : List String) : String :=
  "(?:" ++ String.intercalate "|" (terms.map escapeRegExp) ++ ")(?!\\w)"

/-- The `highlightRegex` memo: no pattern when the search is inactive, otherwise the
compiled pattern for the current term set. -/
def highlightRegex (terms : Option (List String)) : Option String :=
  terms.map buildHighlightPattern

/-- A JS `\w` word character: `[A-Za-z0-9_]`. -/
def isWordChar (c : Char) : Bool :=
  ('a' ≤ c && c ≤ 'z') || ('A' ≤ c && c ≤ 'Z') || ('0' ≤ c && c ≤ '9') || c = '_'

/-- Case-insensitive character comparison (the `i` flag; ASCII simple case folding). -/
def ciEq (a b : Char) : Bool :=
  a.toLower = b.toLower

/-- Case-insensitive literal match of a term against a prefix of the remaining text. -/
def matchesLiteralCI : List Char → List Char → Bool
  | [], _ => true
  | _ :: _, [] => false
  | t :: ts, c :: cs => ciEq t c && matchesLiteralCI ts cs

/-- The alternatives denoted by `(?:${terms.join('|')})`: joining the empty term list
gives the empty string, so the group `(?:)` matches exactly the empty string — one
empty alternative, not an empty alternation. -/
def patternAlternatives (terms : List String) : List String :=
  match terms with
  | [] => [""]
  | _ => terms

/-- Modelled from the spec: the denotation of the compiled `RegExp` (an external
platform facility) on the specific shape built here.  The pattern
`(?:alt1|alt2|...)(?!\w)` with the `i` flag matches at position `i` of `s` iff some
alternative — a literal, since every term is escaped — matches case-insensitively at
`i` and the character right after the matched span (if any) is not a word character
(the negative lookahead). -/
def highlightMatchesAt (terms : List String) (s : List Char) (i : Nat) : Bool :=
  (patternAlternatives terms).any
    (fun t =>
      matchesLiteralCI t.data (s.drop i) &&
      (match (s.drop (i + t.length)).head? with
       | none => true
       | some c => !(isWordChar c)))

/-- Whether the compiled pattern finds a match anywhere in the string. -/
def existsHighlightMatch (terms : List String) (s : String) : Bool :=
  (List.range (s.length + 1)).any (fun i => highlightMatchesAt terms s.data i)

/-! ## Claim theorems -/

/-- C3: for every query that is empty or whitespace-only, the search memo returns with
both the score map and the term set absent, no highlight pattern is produced, and no
auto-selection occurs. -/
theorem c3_blank_query_inactive (hm : List (String × String))
    (rawSearch : String → List SearchResult) (query : String)
    (h : jsTrim query = "") :
    runSearch hm rawSearch query = none ∧
    searchScores hm rawSearch query = none ∧
    searchTerms hm rawSearch query = none ∧
    highlightRegex (searchTerms hm rawSearch query) = none ∧
    autoSelect hm (searchScores hm rawSearch query) = none := by
  simp [runSearch, searchScores, searchTerms, highlightRegex, autoSelect, h]

/-- Witness for C3 at the whitespace-only query `" \t "`, with a raw search that would
return a result if it were consulted. -/
theorem c3_blank_query_inactive_witness :
    runSearch [] (fun _ => [⟨"X", 1, ["x"]⟩]) " \t " = none ∧
    highlightRegex (searchTerms [] (fun _ => [⟨"X", 1, ["x"]⟩]) " \t ") = none ∧
    autoSelect [] (searchScores [] (fun _ => [⟨"X", 1, ["x"]⟩]) " \t ") = none := by
  have h := c3_blank_query_inactive [] (fun _ => [⟨"X", 1, ["x"]⟩]) " \t " (by decide)
  exact ⟨h.1, h.2.2.2.1, h.2.2.2.2⟩

/-- C9: for an empty score map, auto-select performs no action: `openNodeDocumentation`
is not invoked and the current selection is unchanged. -/
theorem c9_empty_scores_no_action (hm : List (String × String)) (current : String) :
    autoSelect hm (some []) = none ∧
    applySelect current (autoSelect hm (some [])) = current := by
  simp [autoSelect, applySelect]

/-- C6: for every schema, the text indexed for `inputs`/`outputs` is the entries'
labels and (defaulted) descriptions joined with blank-line separators, and every other
field is indexed as its raw string value. -/
theorem c6_extract_field_synthesis (doc : NodeSchema) :
    extractField doc SearchField.inputs = specIndexedEntryText doc.inputs ∧
    extractField doc SearchField.outputs = specIndexedEntryText doc.outputs ∧
    extractField doc SearchField.category = doc.category ∧
    extractField doc SearchField.description = doc.description ∧
    extractField doc SearchField.name = doc.name ∧
    extractField doc SearchField.subcategory = doc.subcategory :=
  ⟨rfl, rfl, rfl, rfl, rfl, rfl⟩

/-- C5: the compiled highlight pattern for the term set `{"blur"}` is the literal
alternation `(?:blur)(?!\w)`; it matches `"blur"` and `"blur."` (and, case-insensitively,
`"BLUR"`), but finds no match in `"blurry"`, whose fifth character is a word character. -/
theorem c5_highlight_blur_pattern :
    buildHighlightPattern ["blur"] = "(?:blur)(?!\\w)" ∧
    existsHighlightMatch ["blur"] "blur" = true ∧
    existsHighlightMatch ["blur"] "blur." = true ∧
    existsHighlightMatch ["blur"] "blurry" = false ∧
    existsHighlightMatch ["blur"] "BLUR" = true ∧
    escapeRegExp "a.b" = "a\\.b" := by
  refine ⟨by decide, by decide, by decide, by decide, by decide, by decide⟩

/-- In a result list with pairwise-distinct ids, every result's own score is its id's
final entry: the unconditional `scores.set(id, result.score)` wins, and the promotion
step never overwrites an existing entry. -/
theorem computeScores_own_result (hm : List (String × String))
    (results : List SearchResult) (hnd : (results.map SearchResult.id).Nodup)
    (r : SearchResult) (hr : r ∈ results) :
    mapGet (computeScores hm results) r.id = some r.score := by
  obtain ⟨l1, l2, rfl⟩ := List.append_of_mem hr
  have hnd2 : (r.id :: l2.map SearchResult.id).Nodup := by
    rw [List.map_append, List.map_cons] at hnd
    exact hnd.of_append_right
  have hne : ∀ r' ∈ l2, r'.id ≠ r.id := by
    intro r' hr' heq
    exact (List.nodup_cons.mp hnd2).1 (heq ▸ List.mem_map_of_mem SearchResult.id hr')
  unfold computeScores
  rw [List.foldl_append, List.foldl_cons]
  exact foldl_scoreStep_preserves hm l2 _ r.id r.score
    (scoreStep_self hm (l1.foldl (scoreStep hm) []) r) hne

/-- C1: when the raw results contain both a helper and its parent as direct matches,
the final score map assigns the parent its own score, regardless of the order in which
helper and parent are encountered. -/
theorem c1_parent_keeps_own_score (hm : List (String × String))
    (results : List SearchResult) (rH rP : SearchResult)
    (hnd : (results.map SearchResult.id).Nodup)
    (_hH : rH ∈ results) (hP : rP ∈ results)
    (_hparent : mapGet hm rH.id = some rP.id) :
    mapGet (computeScores hm results) rP.id = some rP.score :=
  computeScores_own_result hm results hnd rP hP

/-- Witness for C1, in both iteration orders: helper `H` (parent `P`) scores 3, parent
`P` scores 2; the final entry for `P` is its own score 2 either way. -/
theorem c1_parent_keeps_own_score_witness :
    mapGet (computeScores [("H", "P")] [⟨"H", 3, ["x"]⟩, ⟨"P", 2, ["y"]⟩]) "P" = some 2 ∧
    mapGet (computeScores [("H", "P")] [⟨"P", 2, ["y"]⟩, ⟨"H", 3, ["x"]⟩]) "P" = some 2 :=
  ⟨c1_parent_keeps_own_score [("H", "P")] [⟨"H", 3, ["x"]⟩, ⟨"P", 2, ["y"]⟩]
      ⟨"H", 3, ["x"]⟩ ⟨"P", 2, ["y"]⟩ (by decide) (by simp) (by simp) (by decide),
   c1_parent_keeps_own_score [("H", "P")] [⟨"P", 2, ["y"]⟩, ⟨"H", 3, ["x"]⟩]
      ⟨"H", 3, ["x"]⟩ ⟨"P", 2, ["y"]⟩ (by decide) (by simp) (by simp) (by decide)⟩

/-- Membership in a `setAdd` fold: exactly the accumulated and inserted elements. -/
theorem mem_foldl_setAdd (l : List String) (acc : List String) (x : String) :
    x ∈ l.foldl setAdd acc ↔ x ∈ acc ∨ x ∈ l := by
  induction l generalizing acc with
  | nil => simp
  | cons y l ih =>
    rw [List.foldl_cons, ih]
    unfold setAdd
    by_cases h : y ∈ acc
    · simp only [h, if_true, List.mem_cons]
      constructor
      · intro hc
        rcases hc with hc | hc
        · exact Or.inl hc
        · exact Or.inr (Or.inr hc)
      · intro hc
        rcases hc with hc | hc | hc
        · exact Or.inl hc
        · exact Or.inl (hc ▸ h)
        · exact Or.inr hc
    · simp only [h, if_false, List.mem_append, List.mem_singleton, List.mem_cons]
      tauto

/-- A `setAdd` fold preserves duplicate-freeness. -/
theorem nodup_foldl_setAdd (l : List String) (acc : List String) (hacc : acc.Nodup) :
    (l.foldl setAdd acc).Nodup := by
  induction l generalizing acc with
  | nil => simpa using hacc
  | cons y l ih =>
    rw [List.foldl_cons]
    apply ih
    unfold setAdd
    by_cases h : y ∈ acc
    · simpa [h] using hacc
    · simp [h, List.nodup_append, hacc]

/-- C8: the term set of an active search is the set of all matched term strings of all
results, each lowercased, with set semantics: it is duplicate-free, and a string is a
member exactly when it is the lowercasing of a matched term of some result. -/
theorem c8_terms_lowercased_dedup (results : List SearchResult) :
    (computeTerms results).Nodup ∧
    ∀ t : String, t ∈ computeTerms results ↔
      ∃ r ∈ results, ∃ t0 ∈ r.terms, t = t0.toLower := by
  constructor
  · exact nodup_foldl_setAdd _ _ List.nodup_nil
  · intro t
    rw [computeTerms, mem_foldl_setAdd]
    simp only [List.mem_map, List.mem_flatten, List.not_mem_nil, false_or]
    constructor
    · rintro ⟨t0, ⟨l, ⟨r, hr, rfl⟩, ht0⟩, rfl⟩
      exact ⟨r, hr, t0, ht0, rfl⟩
    · rintro ⟨r, hr, t0, ht0, rfl⟩
      exact ⟨t0, ⟨r.terms, ⟨r, hr, rfl⟩, ht0⟩, rfl⟩

/-- The degenerate pattern `(?:)(?!\w)` (empty term set) matches at a position exactly
when the character there, if any, is not a word character. -/
theorem highlightMatchesAt_nil (s : List Char) (i : Nat) :
    highlightMatchesAt [] s i =
      ((s.drop i).head?.all (fun c => !(isWordChar c))) := by
  unfold highlightMatchesAt patternAlternatives
  cases h : (s.drop i).head? with
  | none =>
    simp only [List.any_cons, List.any_nil, Bool.or_false]
    have : matchesLiteralCI ("" : String).data (s.drop i) = true := rfl
    rw [this]
    simp only [Bool.true_and]
    have hlen : i + ("" : String).length = i := rfl
    rw [hlen, h]
    rfl
  | some c =>
    simp only [List.any_cons, List.any_nil, Bool.or_false]
    have : matchesLiteralCI ("" : String).data (s.drop i) = true := rfl
    rw [this]
    simp only [Bool.true_and]
    have hlen : i + ("" : String).length = i := rfl
    rw [hlen, h]
    rfl

/-- C10: a non-whitespace query with no matching schema yields a present-but-empty
result (empty score map, empty term set), not the inactive state; the highlight
compiler still produces a pattern — the degenerate `(?:)(?!\w)` — which matches the
empty string at exactly the positions not followed by a word character. -/
theorem c10_no_match_still_active (hm : List (String × String))
    (rawSearch : String → List SearchResult) (query : String)
    (hq : jsTrim query ≠ "") (hres : rawSearch query = []) :
    runSearch hm rawSearch query = some ([], []) ∧
    highlightRegex (searchTerms hm rawSearch query) = some "(?:)(?!\\w)" ∧
    ∀ s : String, ∀ i : Nat,
      highlightMatchesAt [] s.data i =
        ((s.data.drop i).head?.all (fun c => !(isWordChar c))) := by
  refine ⟨?_, ?_, fun s i => highlightMatchesAt_nil s.data i⟩
  · simp [runSearch, hq, hres, computeScores, computeTerms]
  · simp [highlightRegex, searchTerms, runSearch, hq, hres, computeTerms,
      buildHighlightPattern]
    rfl

/-- Witness for C10 at the query `"zzz"` with a raw search returning no results: the
pattern `(?:)(?!\w)` matches in `"a "` (before the space and at the end) but not at
position 0. -/
theorem c10_no_match_still_active_witness :
    runSearch [] (fun _ => []) "zzz" = some ([], []) ∧
    highlightRegex (searchTerms [] (fun _ => []) "zzz") = some "(?:)(?!\\w)" ∧
    highlightMatchesAt [] ("a ").data 0 = false ∧
    highlightMatchesAt [] ("a ").data 1 = true ∧
    highlightMatchesAt [] ("a ").data 2 = true := by
  have h := c10_no_match_still_active [] (fun _ => []) "zzz" (by decide) rfl
  exact ⟨h.1, h.2.1, by decide, by decide, by decide⟩

/-- Counterexample to C2 as stated, in its two failure modes.  First, for a helper
whose schema id is the empty string (helper map `"" ↦ "P"`): the score map does contain
both the helper and its parent with equal scores, but auto-select invokes nothing — the
`if (highestScoreSchemaId)` truthiness guard treats the empty-string id as absent, so
the claimed invocation with the parent `"P"` does not happen.  Second, for a helper
`"H"` whose recorded parent is the empty string: the `if (parent && ...)` truthiness
guard skips promotion entirely, so the score map does not contain the parent key at
all. -/
theorem c2_empty_helper_id_counterexample :
    (computeScores [("", "P")] [⟨"", 1, ["x"]⟩] = [("", 1), ("P", 1)] ∧
     autoSelect [("", "P")] (some (computeScores [("", "P")] [⟨"", 1, ["x"]⟩])) = none) ∧
    computeScores [("H", "")] [⟨"H", 1, ["x"]⟩] = [("H", 1)] := by
  refine ⟨⟨by decide, ?_⟩, by decide⟩
  show autoSelect [("", "P")] (some [("", 1), ("P", 1)]) = none
  simp [autoSelect, maxScore, List.find?]

/-- C2 (amended): for a query whose result set contains exactly one identifier, that
identifier being a helper (a key of the helper map), and provided both the helper's
identifier and its parent identifier are non-empty strings, the score map contains both
the helper's and the parent's identifiers with equal scores, and auto-select resolves
the selection to the parent and invokes the open-documentation action with it. -/
theorem c2_single_helper_promoted_and_selected (hm : List (String × String))
    (r : SearchResult) (P : String)
    (hparent : mapGet hm r.id = some P) (hid : r.id ≠ "") (hP : P ≠ "") :
    mapGet (computeScores hm [r]) r.id = some r.score ∧
    mapGet (computeScores hm [r]) P = some r.score ∧
    autoSelect hm (some (computeScores hm [r])) = some P := by
  by_cases hEq : P = r.id
  · subst hEq
    have hmap : computeScores hm [r] = [(r.id, r.score)] := by
      simp [computeScores, scoreStep, mapSet, hparent, hid, mapHas, mapGet]
    have hmax : maxScore [(r.id, r.score)] = r.score := by simp [maxScore]
    refine ⟨?_, ?_, ?_⟩
    · rw [hmap]; simp [mapGet]
    · rw [hmap]; simp [mapGet]
    · rw [hmap]
      simp [autoSelect, hmax, List.find?, hid, hparent]
  · have hmap : computeScores hm [r] = [(r.id, r.score), (P, r.score)] := by
      have hne2 : ¬ r.id = P := fun h => hEq h.symm
      simp [computeScores, scoreStep, mapSet, hparent, hP, mapHas, mapGet, hne2]
    have hmax : maxScore [(r.id, r.score), (P, r.score)] = r.score := by
      simp [maxScore]
    refine ⟨?_, ?_, ?_⟩
    · rw [hmap]; simp [mapGet]
    · rw [hmap]
      have hne2 : ¬ r.id = P := fun h => hEq h.symm
      simp [mapGet, hne2]
    · rw [hmap]
      simp [autoSelect, hmax, List.find?, hid, hparent]

/-- Witness for the amended C2: helper `"H"` with parent `"P"`, single result of
score 2; both ids score 2 and auto-select invokes with `"P"`. -/
theorem c2_single_helper_promoted_and_selected_witness :
    mapGet (computeScores [("H", "P")] [⟨"H", 2, ["x"]⟩]) "H" = some 2 ∧
    mapGet (computeScores [("H", "P")] [⟨"H", 2, ["x"]⟩]) "P" = some 2 ∧
    autoSelect [("H", "P")] (some (computeScores [("H", "P")] [⟨"H", 2, ["x"]⟩])) =
      some "P" :=
  c2_single_helper_promoted_and_selected [("H", "P")] ⟨"H", 2, ["x"]⟩ "P"
    (by decide) (by decide) (by decide)

/-- The running maximum of a fold over `max` is either the initial value or attained
in the list. -/
theorem foldl_max_attained (l : List (String × ℚ)) (a : ℚ) :
    l.foldl (fun b q => max b q.2) a = a ∨
    ∃ q ∈ l, l.foldl (fun b q => max b q.2) a = q.2 := by
  induction l generalizing a with
  | nil => left; rfl
  | cons p l ih =>
    rw [List.foldl_cons]
    rcases ih (max a p.2) with h | h
    · rw [h]
      rcases max_cases a p.2 with ⟨h1, _⟩ | ⟨h1, _⟩
      · left; exact h1
      · right; exact ⟨p, by simp, h1⟩
    · obtain ⟨q, hq, heq⟩ := h
      right; exact ⟨q, by simp [hq], heq⟩

/-- `Math.max` over the values of a non-empty score map is attained by some entry. -/
theorem maxScore_attained (m : List (String × ℚ)) (h : m ≠ []) :
    ∃ q ∈ m, q.2 = maxScore m := by
  match m with
  | p :: rest =>
    unfold maxScore
    rcases foldl_max_attained rest p.2 with h1 | h1
    · exact ⟨p, by simp, h1.symm⟩
    · obtain ⟨q, hq, heq⟩ := h1
      exact ⟨q, by simp [hq], heq.symm⟩

/-- Counterexample to C4 as stated: the score map `[("", 1)]` is non-empty, yet
auto-select invokes nothing: after the first maximal entry is selected, the
`if (highestScoreSchemaId)` truthiness guard rejects the empty-string identifier, so
the open-documentation action is not called. -/
theorem c4_empty_id_counterexample :
    ([("", (1 : ℚ))] : List (String × ℚ)) ≠ [] ∧
    autoSelect [] (some [("", (1 : ℚ))]) = none := by
  refine ⟨by simp, ?_⟩
  simp [autoSelect, maxScore, List.find?]

/-- C4 (amended): for every non-empty score map, auto-select finds the first entry (in
map iteration order) whose score equals the maximum score; provided that entry's
identifier is a non-empty string, it substitutes the parent identifier if the
identifier is a helper and invokes the open-documentation action with the resolved
identifier (the concrete `{A: 0.9, B: 0.9, C: 0.5} ↦ A` instance is the witness). -/
theorem c4_first_max_entry_selected (hm : List (String × String))
    (m : List (String × ℚ)) (hne : m ≠ []) :
    ∃ p : String × ℚ, m.find? (fun q => q.2 = maxScore m) = some p ∧
      p.2 = maxScore m ∧
      (p.1 ≠ "" → autoSelect hm (some m) = some ((mapGet hm p.1).getD p.1)) := by
  obtain ⟨q, hq, hqmax⟩ := maxScore_attained m hne
  have hsome : (m.find? (fun q => q.2 = maxScore m)).isSome := by
    rw [List.find?_isSome]
    exact ⟨q, hq, by simp [hqmax]⟩
  obtain ⟨p, hp⟩ := Option.isSome_iff_exists.mp hsome
  refine ⟨p, hp, ?_, ?_⟩
  · have := List.find?_some hp
    simpa using this
  · intro hpne
    have hlen : 0 < m.length := List.length_pos.mpr hne
    simp [autoSelect, hlen, hp, hpne]

/-- Witness for the amended C4: on `{A: 0.9, B: 0.9, C: 0.5}` (insertion order `A`
first) with no helpers, auto-select invokes with `A`. -/
theorem c4_first_max_entry_selected_witness :
    autoSelect [] (some [("A", (9 : ℚ)/10), ("B", 9/10), ("C", 1/2)]) = some "A" := by
  obtain ⟨p, hfind, hpmax, himp⟩ :=
    c4_first_max_entry_selected [] [("A", (9 : ℚ)/10), ("B", 9/10), ("C", 1/2)] (by simp)
  have hfind2 : ([("A", (9 : ℚ)/10), ("B", 9/10), ("C", 1/2)]).find?
      (fun q => q.2 = maxScore [("A", (9 : ℚ)/10), ("B", 9/10), ("C", 1/2)]) =
      some ("A", 9/10) := by
    norm_num [List.find?, maxScore, max_def]
  have hp : p = ("A", 9/10) := by
    rw [hfind] at hfind2
    exact Option.some_injective _ hfind2
  have h2 := himp (by rw [hp]; decide)
  rw [hp] at h2
  simpa [mapGet] using h2

/-- Any entry after one score step comes from the accumulator, the result's own id, or
the result's parent in the helper map. -/
theorem mem_scoreStep (hm : List (String × String)) (scores : List (String × ℚ))
    (r : SearchResult) (q : String × ℚ) (h : q ∈ scoreStep hm scores r) :
    q ∈ scores ∨ q.1 = r.id ∨ mapGet hm r.id = some q.1 := by
  unfold scoreStep at h
  cases hp : mapGet hm r.id with
  | none =>
    rw [hp] at h
    simp only at h
    rcases mem_mapSet _ _ _ _ h with h' | h'
    · exact Or.inl h'
    · exact Or.inr (Or.inl h')
  | some parent =>
    rw [hp] at h
    simp only at h
    by_cases hpe : parent = ""
    · rw [if_pos hpe] at h
      rcases mem_mapSet _ _ _ _ h with h' | h'
      · exact Or.inl h'
      · exact Or.inr (Or.inl h')
    · rw [if_neg hpe] at h
      by_cases hhas : mapHas (mapSet scores r.id r.score) parent
      · rw [if_pos hhas] at h
        rcases mem_mapSet _ _ _ _ h with h' | h'
        · exact Or.inl h'
        · exact Or.inr (Or.inl h')
      · rw [if_neg hhas] at h
        rcases mem_mapSet _ _ _ _ h with h' | h'
        · rcases mem_mapSet _ _ _ _ h' with h'' | h''
          · exact Or.inl h''
          · exact Or.inr (Or.inl h'')
        · exact Or.inr (Or.inr (by rw [h']))

/-- Any entry of a folded score map comes from the accumulator or from some result
(its own id or its promoted parent). -/
theorem mem_foldl_scoreStep (hm : List (String × String)) (l : List SearchResult)
    (acc : List (String × ℚ)) (q : String × ℚ)
    (h : q ∈ l.foldl (scoreStep hm) acc) :
    q ∈ acc ∨ ∃ r ∈ l, q.1 = r.id ∨ mapGet hm r.id = some q.1 := by
  induction l generalizing acc with
  | nil => exact Or.inl (by simpa using h)
  | cons r l ih =>
    rw [List.foldl_cons] at h
    rcases ih (scoreStep hm acc r) h with h' | h'
    · rcases mem_scoreStep hm acc r q h' with h'' | h''
      · exact Or.inl h''
      · exact Or.inr ⟨r, by simp, h''⟩
    · obtain ⟨r', hr', hcase⟩ := h'
      exact Or.inr ⟨r', by simp [hr'], hcase⟩

/-- A value bound by the inner helper fold of `buildHelperMap` is the schema's own id
unless it was already in the accumulator. -/
theorem mapGet_inner_fold (schema : NodeSchema) (helpers : List DefaultNode)
    (acc : List (String × String)) (h p : String)
    (hget : mapGet (helpers.foldl
      (fun mp helper => mapSet mp helper.schemaId schema.schemaId) acc) h = some p) :
    mapGet acc h = some p ∨ p = schema.schemaId := by
  induction helpers generalizing acc with
  | nil => exact Or.inl (by simpa using hget)
  | cons d helpers ih =>
    rw [List.foldl_cons] at hget
    rcases ih _ hget with h' | h'
    · rcases mapGet_mapSet_cases _ _ _ _ _ h' with ⟨_, h''⟩ | h''
      · exact Or.inr h''
      · exact Or.inl h''
    · exact Or.inr h'

/-- A value bound by the outer fold of `buildHelperMap` is the id of some schema of the
collection unless it was already in the accumulator. -/
theorem mapGet_outer_fold (schemata : List NodeSchema) (acc : List (String × String))
    (h p : String)
    (hget : mapGet (schemata.foldl
      (fun mapping schema => (schema.defaultNodes.getD []).foldl
        (fun mp helper => mapSet mp helper.schemaId schema.schemaId) mapping) acc) h =
      some p) :
    mapGet acc h = some p ∨ ∃ s ∈ schemata, s.schemaId = p := by
  induction schemata generalizing acc with
  | nil => exact Or.inl (by simpa using hget)
  | cons s schemata ih =>
    rw [List.foldl_cons] at hget
    rcases ih _ hget with h' | h'
    · rcases mapGet_inner_fold s _ acc h p h' with h'' | h''
      · exact Or.inl h''
      · exact Or.inr ⟨s, by simp, h''.symm⟩
    · obtain ⟨s', hs', hsp⟩ := h'
      exact Or.inr ⟨s', by simp [hs'], hsp⟩

/-- Every parent id stored in the helper map is the id of a schema of the collection. -/
theorem mapGet_buildHelperMap (schemata : List NodeSchema) (h p : String)
    (hget : mapGet (buildHelperMap schemata) h = some p) :
    ∃ s ∈ schemata, s.schemaId = p := by
  rcases mapGet_outer_fold schemata [] h p hget with h' | h'
  · simp at h'
  · exact h'

/-- C7: when every raw result id comes from the index over the collection (the search
library's contract), every key of the promoted score map is the id of a schema of that
collection: direct keys by hypothesis, promoted keys because the helper map built over
the collection only stores collection schema ids as parents. -/
theorem c7_score_keys_in_collection (schemata : List NodeSchema)
    (results : List SearchResult)
    (hres : ∀ r ∈ results, r.id ∈ schemata.map NodeSchema.schemaId) :
    ∀ q ∈ computeScores (buildHelperMap schemata) results,
      q.1 ∈ schemata.map NodeSchema.schemaId := by
  intro q hq
  rcases mem_foldl_scoreStep _ _ _ q hq with h | h
  · simp at h
  · obtain ⟨r, hr, hcase⟩ := h
    rcases hcase with h | h
    · rw [h]; exact hres r hr
    · obtain ⟨s, hs, hsp⟩ := mapGet_buildHelperMap schemata r.id q.1 h
      rw [← hsp]
      exact List.mem_map_of_mem _ hs

/-- Witness for C7: a collection with parent `"S"` (declaring helper `"H"`) and helper
schema `"H"`; a search matching only `"H"` promotes `"S"`, and the promoted key `"S"`
is the id of a schema of the collection. -/
theorem c7_score_keys_in_collection_witness :
    ("S", (1 : ℚ)) ∈
      computeScores
        (buildHelperMap
          [⟨"S", "s", "c", "sc", "d", [], [], some [⟨"H"⟩]⟩,
           ⟨"H", "h", "c", "sc", "d", [], [], none⟩])
        [⟨"H", 1, ["x"]⟩] ∧
    ("S" : String) ∈
      ([⟨"S", "s", "c", "sc", "d", [], [], some [⟨"H"⟩]⟩,
        ⟨"H", "h", "c", "sc", "d", [], [], none⟩] : List NodeSchema).map
        NodeSchema.schemaId :=
  ⟨by decide,
   c7_score_keys_in_collection
     [⟨"S", "s", "c", "sc", "d", [], [], some [⟨"H"⟩]⟩,
      ⟨"H", "h", "c", "sc", "d", [], [], none⟩]
     [⟨"H", 1, ["x"]⟩] (by decide) ("S", 1) (by decide)⟩
